import Mathlib

/-!
Verification of the caching subsystem of src/backend/cache.py.

The Python code is shallowly embedded: Python values passed to the key
generator become the inductive type PyVal, the wall clock becomes an explicit
Nat argument, raised exceptions become Option results (none is a raise), and
the OrderedDict of the LRU backend becomes an association list whose head is
the least recently used entry.
-/

/-- Model of the Python values that reach the cache key generator: strings,
ints, bools, None, lists, dicts (insertion-ordered association lists with
string keys, as in Python), and a non-JSON-serializable object carrying its
memory address (the address shows up in its default str()/repr() text). -/
inductive PyVal where
  | str (s : String)
  | int (n : Int)
  | bool (b : Bool)
  | noneV
  | list (xs : List PyVal)
  | dict (entries : List (String × PyVal))
  | obj (addr : Nat)

mutual

/-- Python repr() on the modelled values. repr never raises; for a plain
object it produces the identity-dependent default text containing the
memory address. -/
def pyRepr : PyVal → String
  | .str s => "'" ++ s ++ "'"
  | .int n => toString n
  | .bool b => if b then "True" else "False"
  | .noneV => "None"
  | .obj addr => "<object object at 0x" ++ toString addr ++ ">"
  | .list xs => "[" ++ String.intercalate ", " (pyReprList xs) ++ "]"
  | .dict d => "\x7b" ++ String.intercalate ", " (pyReprPairs d) ++ "\x7d"

/-- repr() of the elements of a list. -/
def pyReprList : List PyVal → List String
  | [] => []
  | x :: t => pyRepr x :: pyReprList t

/-- repr() of the entries of a dict. -/
def pyReprPairs : List (String × PyVal) → List String
  | [] => []
  | (k, v) :: t => ("'" ++ k ++ "': " ++ pyRepr v) :: pyReprPairs t

end

/-- Python str() on the modelled values: a string is returned unchanged, every
other modelled value prints as its repr(), including the identity-dependent
default text of a plain object. -/
def pyStr : PyVal → String
  | .str s => s
  | v => pyRepr v

/-- JSON string escaping for quotes and backslashes (the characters relevant
to the modelled values). -/
def jsonEscapeChar (c : Char) : String :=
  if c = '"' then "\\\"" else if c = '\\' then "\\\\" else String.singleton c

/-- A JSON string literal as produced by json.dumps. -/
def jsonQuote (s : String) : String :=
  "\"" ++ String.join (s.data.map jsonEscapeChar) ++ "\""

/-- Lexicographic comparison of character sequences by code point; this is
the string ordering Python uses for sorted() and for sort_keys. Written as a
structural recursion so that it evaluates inside the kernel. -/
def charListLe : List Char → List Char → Bool
  | [], _ => true
  | _ :: _, [] => false
  | a :: as, b :: bs => if a = b then charListLe as bs else decide (a < b)

/-- String comparison by code points, as Python compares str values. -/
def strLe (s t : String) : Bool := charListLe s.data t.data

/-- Insert one keyed pair into a list sorted by key under strLe. -/
def sortInsert (x : String × β) : List (String × β) → List (String × β)
  | [] => [x]
  | y :: t => if strLe x.1 y.1 then x :: y :: t else y :: sortInsert x t

/-- Sort keyed pairs by key under strLe: the model of Python sorting the
items of a dict by key (keys of a dict are distinct, so values are never
compared). -/
def sortPairs : List (String × β) → List (String × β)
  | [] => []
  | x :: t => sortInsert x (sortPairs t)

/-- Render the sorted, already serialized entries of a dict the way
json.dumps renders an object. -/
def renderDict (ps : List (String × String)) : String :=
  "\x7b" ++ String.intercalate ", " (ps.map (fun p => jsonQuote p.1 ++ ": " ++ p.2)) ++ "\x7d"

mutual

/-- json.dumps(v, sort_keys=True): dict keys are sorted before rendering, and
a non-serializable object raises TypeError, modelled as none. For a dict the
entries are serialized first and then sorted by key, which renders the same
text as sorting first because serialization is applied entrywise. -/
def jsonDumps : PyVal → Option String
  | .str s => some (jsonQuote s)
  | .int n => some (toString n)
  | .bool b => some (if b then "true" else "false")
  | .noneV => some "null"
  | .obj _ => none
  | .list xs =>
    match jsonList xs with
    | none => none
    | some ps => some ("[" ++ String.intercalate ", " ps ++ "]")
  | .dict d =>
    match jsonPairs d with
    | none => none
    | some ps => some (renderDict (sortPairs ps))

/-- Serialize the elements of a JSON array, failing if any element fails. -/
def jsonList : List PyVal → Option (List String)
  | [] => some []
  | x :: xs =>
    match jsonDumps x, jsonList xs with
    | some s, some t => some (s :: t)
    | _, _ => none

/-- Serialize the values of the entries of a JSON object, failing if any
value fails. -/
def jsonPairs : List (String × PyVal) → Option (List (String × String))
  | [] => some []
  | (k, v) :: t =>
    match jsonDumps v, jsonPairs t with
    | some s, some r => some ((k, s) :: r)
    | _, _ => none

end

/-- One positional argument of generate_cache_key: dicts and lists go through
json.dumps with sorted keys, everything else through str(). -/
def keyPart (arg : PyVal) : Option String :=
  match arg with
  | .dict _ => jsonDumps arg
  | .list _ => jsonDumps arg
  | _ => some (pyStr arg)

/-- The serialized positional arguments, in order; fails if any fails. -/
def keyParts : List PyVal → Option (List String)
  | [] => some []
  | a :: t =>
    match keyPart a, keyParts t with
    | some s, some r => some (s :: r)
    | _, _ => none

/-- One keyword argument rendered as name=value, with dict and list values
going through json.dumps with sorted keys and everything else through the
str() formatting of an f-string. -/
def kwPart (p : String × PyVal) : Option String :=
  match p.2 with
  | .dict _ => (jsonDumps p.2).map (fun s => p.1 ++ "=" ++ s)
  | .list _ => (jsonDumps p.2).map (fun s => p.1 ++ "=" ++ s)
  | v => some (p.1 ++ "=" ++ pyStr v)

/-- The serialized keyword arguments, in the given order; fails if any
fails. -/
def kwParts : List (String × PyVal) → Option (List String)
  | [] => some []
  | p :: t =>
    match kwPart p, kwParts t with
    | some s, some r => some (s :: r)
    | _, _ => none

/-- generate_cache_key of src/backend/cache.py: positional arguments are
serialized in order, keyword arguments are sorted by name and rendered as
name=value, the parts are joined with a vertical bar, and the joined text is
digested. The digest (md5 hexdigest in the source) is an argument so that the
development can state that equal canonical texts give equal keys for the
actual digest function; a raised serialization error is modelled as none. -/
def generate_cache_key (digest : String → String) (args : List PyVal)
    (kwargs : List (String × PyVal)) : Option String :=
  match keyParts args with
  | none => none
  | some ps =>
    match kwParts (sortPairs kwargs) with
    | none => none
    | some qs => some (digest (String.intercalate "|" (ps ++ qs)))

/-- First value stored under a key in an association list, as dict lookup. -/
def assocFind (k : String) : List (String × β) → Option β
  | [] => none
  | (k₂, v) :: t => if k₂ = k then some v else assocFind k t

/-- Remove the entry stored under a key, keeping the order of the others, as
del on an OrderedDict. -/
def eraseKey (k : String) : List (String × β) → List (String × β)
  | [] => []
  | (k₂, v) :: t => if k₂ = k then eraseKey k t else (k₂, v) :: eraseKey k t

/-- Python startswith on code point sequences. -/
def listIsPrefix : List Char → List Char → Bool
  | [], _ => true
  | _ :: _, [] => false
  | a :: as, b :: bs => if a = b then listIsPrefix as bs else false

/-- s.startswith(pre) of Python. -/
def pyStartsWith (s pre : String) : Bool := listIsPrefix pre.data s.data

/-- The in-memory LRU backend of src/backend/cache.py: an OrderedDict from
physical key to (value, optional absolute expiry time), with the least
recently used entry at the head of the list, a capacity bound, and hit, miss
and eviction counters. -/
structure LRUCache (α : Type) where
  max_size : Nat
  cache : List (String × (α × Option Nat))
  hits : Nat
  misses : Nat
  evictions : Nat

/-- LRUCache.__init__: empty store and zeroed counters. -/
def LRUCache.init (α : Type) (max_size : Nat) : LRUCache α :=
  ⟨max_size, [], 0, 0, 0⟩

/-- LRUCache._generate_key: the physical key is the namespace and the key
joined with a colon. -/
def LRUCache._generate_key (ns key : String) : String :=
  ns ++ ":" ++ key

/-- The expiry computed by LRUCache.set: time.time() + ttl if ttl else None.
A ttl of None or 0 is falsy in Python, so both store no expiry. -/
def pyExpiry (now : Nat) (ttl : Option Nat) : Option Nat :=
  match ttl with
  | some t => if t ≠ 0 then some (now + t) else none
  | none => none

/-- LRUCache.get at clock time now: a missing key is a miss; a present key is
first moved to the most recently used position, then, if its expiry is truthy
and strictly in the past, the entry is deleted and the access counts as a
miss; otherwise it is a hit returning the stored value. -/
def LRUCache.get (self : LRUCache α) (now : Nat) (ns key : String) :
    Option α × LRUCache α :=
  let cache_key := LRUCache._generate_key ns key
  match assocFind cache_key self.cache with
  | none => (none, { self with misses := self.misses + 1 })
  | some (value, expiry) =>
    let moved := eraseKey cache_key self.cache ++ [(cache_key, (value, expiry))]
    match expiry with
    | some e =>
      if e ≠ 0 ∧ e < now then
        (none, { self with cache := eraseKey cache_key moved,
                           misses := self.misses + 1 })
      else
        (some value, { self with cache := moved, hits := self.hits + 1 })
    | none =>
      (some value, { self with cache := moved, hits := self.hits + 1 })

/-- LRUCache.set at clock time now: the entry is written at the most recently
used position (an existing entry under the same key is moved to the end and
overwritten), and if the size then exceeds max_size the oldest entry is
deleted and the eviction counter incremented. -/
def LRUCache.set (self : LRUCache α) (now : Nat) (ns key : String) (value : α)
    (ttl : Option Nat) : LRUCache α :=
  let cache_key := LRUCache._generate_key ns key
  let c := eraseKey cache_key self.cache ++ [(cache_key, (value, pyExpiry now ttl))]
  if self.max_size < c.length then
    { self with cache := c.drop 1, evictions := self.evictions + 1 }
  else
    { self with cache := c }

/-- LRUCache.delete: remove the entry if present; no error if absent. -/
def LRUCache.delete (self : LRUCache α) (ns key : String) : LRUCache α :=
  { self with cache := eraseKey (LRUCache._generate_key ns key) self.cache }

/-- LRUCache.clear: with a truthy namespace, delete exactly the physical keys
that start with the namespace followed by a colon; with None, and also with
the falsy empty string, empty the whole store. -/
def LRUCache.clear (self : LRUCache α) (ns : Option String) : LRUCache α :=
  match ns with
  | some n =>
    if n = "" then { self with cache := [] }
    else { self with cache := self.cache.filter (fun p => !(pyStartsWith p.1 (n ++ ":"))) }
  | none => { self with cache := [] }

/-- The Redis backend state relevant here: its counters. The network client
is external and enters the model only through the outcome of ping. -/
structure RedisCache where
  hits : Nat
  misses : Nat

/-- RedisCache.__init__: raises if the redis module is unavailable, otherwise
builds the client and pings it, re-raising a ping failure. The outcome of the
network ping is an argument; a raise is modelled as Except.error. -/
def RedisCache.init (redis_available : Bool) (ping : Except String Unit) :
    Except String RedisCache :=
  if redis_available then
    match ping with
    | .error e => .error e
    | .ok _ => .ok ⟨0, 0⟩
  else
    .error "Redis not available"

/-- The configuration read by CacheConfig: the USE_REDIS_CACHE flag, whether
the redis module imported, and MEMORY_CACHE_MAX_SIZE. -/
structure CacheConfigModel where
  use_redis_env : Bool
  redis_available : Bool
  memory_cache_max_size : Nat

/-- CacheConfig.USE_REDIS: the environment flag and the availability of the
redis module conjoined. -/
def CacheConfigModel.USE_REDIS (cfg : CacheConfigModel) : Bool :=
  cfg.use_redis_env && cfg.redis_available

/-- The backend owned by a CacheManager. -/
inductive CacheBackend (α : Type) where
  | lru (c : LRUCache α)
  | redis (r : RedisCache)

/-- CacheManager._initialize_backend: when USE_REDIS holds, try to construct
the Redis backend and on any exception fall back to a fresh in-memory LRU
cache of the configured size; otherwise build the LRU cache directly. The
return type is a plain backend, not an exception: construction is total. -/
def CacheManager.backend_init (α : Type) (cfg : CacheConfigModel)
    (ping : Except String Unit) : CacheBackend α :=
  if cfg.USE_REDIS then
    match RedisCache.init cfg.redis_available ping with
    | .ok r => .redis r
    | .error _ => .lru (LRUCache.init α cfg.memory_cache_max_size)
  else
    .lru (LRUCache.init α cfg.memory_cache_max_size)

/-- CacheConfig.TTL_EMBEDDING with its default configuration: 86400 seconds. -/
def CacheConfig.TTL_EMBEDDING : Nat := 86400

/-- The ttl stored by the cache_embedding wrapper: the decorator argument
when truthy, else the configured embedding default, as in the expression
ttl or CacheConfig.TTL_EMBEDDING (a decorator ttl of 0 is falsy). -/
def embedding_cache_ttl : Option Nat → Nat
  | some t => if t ≠ 0 then t else CacheConfig.TTL_EMBEDDING
  | none => CacheConfig.TTL_EMBEDDING

/-- The wrapper produced by the cache_embedding decorator, running against the
global cache manager in its default configuration, whose backend is the
in-memory LRU cache. Stored Python values may themselves be None, so the
value type is Option V and the CacheManager.get result collapses a miss and a
stored None into the same Python None, exactly as in the source. The result
is the returned value, the cache state after the call, and whether the
wrapped function body executed; a key generation exception is none. -/
def cache_embedding_wrapper {V : Type} (digest : String → String)
    (ttl : Option Nat) (f : List PyVal → List (String × PyVal) → Option V)
    (now : Nat) (args : List PyVal) (kwargs : List (String × PyVal))
    (st : LRUCache (Option V)) : Option (Option V × LRUCache (Option V) × Bool) :=
  match generate_cache_key digest args kwargs with
  | none => none
  | some cache_key =>
    let g := st.get now "embedding" cache_key
    let cached_value : Option V :=
      match g.1 with
      | some v => v
      | none => none
    match cached_value with
    | some v => some (some v, g.2, false)
    | none =>
      let result := f args kwargs
      some (result,
        (g.2).set now "embedding" cache_key result (some (embedding_cache_ttl ttl)),
        true)

/-- Two successive calls of a function wrapped by cache_embedding, threading
the cache state, reporting for each call the returned value and whether the
wrapped body executed; none if key generation raised. -/
def runTwice {V : Type} (digest : String → String) (ttl : Option Nat)
    (f : List PyVal → List (String × PyVal) → Option V) (t₁ t₂ : Nat)
    (args₁ : List PyVal) (kw₁ : List (String × PyVal))
    (args₂ : List PyVal) (kw₂ : List (String × PyVal))
    (st : LRUCache (Option V)) : Option ((Option V × Bool) × (Option V × Bool)) :=
  match cache_embedding_wrapper digest ttl f t₁ args₁ kw₁ st with
  | none => none
  | some (r₁, st₁, e₁) =>
    match cache_embedding_wrapper digest ttl f t₂ args₂ kw₂ st₁ with
    | none => none
    | some (r₂, _, e₂) => some ((r₁, e₁), (r₂, e₂))

/-- The key ordering used by sortPairs, as a relation for sortedness proofs. -/
def leP (a b : String × β) : Prop := strLe a.1 b.1 = true

/-- The serialized text of a value, defaulting to the empty string; used only
to phrase the success case of jsonPairs. -/
def dumpD (v : PyVal) : String := (jsonDumps v).getD ""

theorem assocFind_eq_none {l : List (String × β)} {k : String} :
    assocFind k l = none ↔ ∀ p ∈ l, p.1 ≠ k := by
  induction l with
  | nil => simp [assocFind]
  | cons p t ih =>
    obtain ⟨k₂, v⟩ := p
    by_cases h : k₂ = k <;> simp [assocFind, h, ih]

theorem assocFind_eraseKey_self {l : List (String × β)} {k : String} :
    assocFind k (eraseKey k l) = none := by
  induction l with
  | nil => simp [eraseKey, assocFind]
  | cons p t ih =>
    obtain ⟨k₂, v⟩ := p
    by_cases h : k₂ = k <;> simp [eraseKey, assocFind, h, ih]

theorem assocFind_eraseKey_ne {l : List (String × β)} {k k' : String} (h : k' ≠ k) :
    assocFind k' (eraseKey k l) = assocFind k' l := by
  induction l with
  | nil => simp [eraseKey]
  | cons p t ih =>
    obtain ⟨k₂, v⟩ := p
    by_cases h₂ : k₂ = k
    · have h₃ : ¬ k = k' := fun hh => h hh.symm
      simp [eraseKey, assocFind, h₂, h₃, ih]
    · simp [eraseKey, assocFind, h₂, h, ih]

theorem eraseKey_of_not_found {l : List (String × β)} {k : String}
    (h : assocFind k l = none) : eraseKey k l = l := by
  induction l with
  | nil => simp [eraseKey]
  | cons p t ih =>
    obtain ⟨k₂, v⟩ := p
    by_cases h₂ : k₂ = k
    · simp [assocFind, h₂] at h
    · simp [assocFind, h₂] at h
      simp [eraseKey, h₂, ih h]

theorem assocFind_append_of_none {l r : List (String × β)} {k : String}
    (h : assocFind k l = none) : assocFind k (l ++ r) = assocFind k r := by
  induction l with
  | nil => simp
  | cons p t ih =>
    obtain ⟨k₂, v⟩ := p
    by_cases h₂ : k₂ = k
    · simp [assocFind, h₂] at h
    · simp [assocFind, h₂] at h ⊢
      exact ih h

theorem eraseKey_append {l r : List (String × β)} {k : String} :
    eraseKey k (l ++ r) = eraseKey k l ++ eraseKey k r := by
  induction l with
  | nil => simp [eraseKey]
  | cons p t ih =>
    obtain ⟨k₂, v⟩ := p
    by_cases h : k₂ = k <;> simp [eraseKey, h, ih]

theorem length_eraseKey_le {l : List (String × β)} {k : String} :
    (eraseKey k l).length ≤ l.length := by
  induction l with
  | nil => simp [eraseKey]
  | cons p t ih =>
    obtain ⟨k₂, v⟩ := p
    by_cases h : k₂ = k
    · simp only [eraseKey, h, if_pos rfl]
      exact Nat.le_succ_of_le ih
    · simp only [eraseKey, h, if_neg h, List.length_cons]
      exact Nat.succ_le_succ ih

theorem length_eraseKey_lt {l : List (String × β)} {k : String} {v : β}
    (h : assocFind k l = some v) : (eraseKey k l).length < l.length := by
  induction l with
  | nil => simp [assocFind] at h
  | cons p t ih =>
    obtain ⟨k₂, w⟩ := p
    by_cases h₂ : k₂ = k
    · simp only [eraseKey, h₂, if_pos rfl, List.length_cons]
      exact Nat.lt_succ_of_le length_eraseKey_le
    · simp only [assocFind, h₂, if_neg h₂] at h
      simp only [eraseKey, if_neg h₂, List.length_cons]
      exact Nat.succ_lt_succ (ih h)

theorem mem_eraseKey {l : List (String × β)} {k : String} {p : String × β}
    (h : p ∈ eraseKey k l) : p ∈ l := by
  induction l with
  | nil => simp [eraseKey] at h
  | cons q t ih =>
    obtain ⟨k₂, v⟩ := q
    by_cases h₂ : k₂ = k
    · simp only [eraseKey, if_pos h₂] at h
      exact List.mem_cons_of_mem _ (ih h)
    · simp only [eraseKey, if_neg h₂] at h
      rcases List.mem_cons.mp h with h₃ | h₃
      · exact h₃ ▸ List.mem_cons_self _ _
      · exact List.mem_cons_of_mem _ (ih h₃)

theorem assocFind_eraseKey_none {l : List (String × β)} {k k' : String}
    (h : assocFind k' l = none) : assocFind k' (eraseKey k l) = none := by
  rw [assocFind_eq_none] at h ⊢
  exact fun p hp => h p (mem_eraseKey hp)

theorem assocFind_drop_none {l : List (String × β)} {k : String} {n : Nat}
    (h : assocFind k l = none) : assocFind k (l.drop n) = none := by
  rw [assocFind_eq_none] at h ⊢
  exact fun p hp => h p (List.mem_of_mem_drop hp)

theorem assocFind_filter_keep {l : List (String × β)} {k : String}
    {q : String × β → Bool} (h : ∀ v : β, q (k, v) = true) :
    assocFind k (l.filter q) = assocFind k l := by
  induction l with
  | nil => simp
  | cons p t ih =>
    obtain ⟨k₂, v⟩ := p
    by_cases h₂ : k₂ = k
    · subst h₂
      simp [List.filter_cons, h v, assocFind]
    · by_cases h₃ : q (k₂, v) <;> simp [List.filter_cons, h₃, assocFind, h₂, ih]

theorem assocFind_filter_drop {l : List (String × β)} {k : String}
    {q : String × β → Bool} (h : ∀ v : β, q (k, v) = false) :
    assocFind k (l.filter q) = none := by
  rw [assocFind_eq_none]
  intro p hp
  obtain ⟨hm, hq⟩ := List.mem_filter.mp hp
  intro h₂
  obtain ⟨k₂, v⟩ := p
  simp only at h₂
  subst h₂
  rw [h v] at hq
  exact Bool.noConfusion hq

theorem _generate_key_data (ns k : String) :
    (LRUCache._generate_key ns k).data = ns.data ++ ':' :: k.data := by
  have h : (":" : String).data = [':'] := rfl
  simp [LRUCache._generate_key, String.data_append, h]

theorem _generate_key_inj {ns k₁ k₂ : String} :
    LRUCache._generate_key ns k₁ = LRUCache._generate_key ns k₂ ↔ k₁ = k₂ := by
  constructor
  · intro h
    have h₂ := congrArg String.data h
    rw [_generate_key_data, _generate_key_data] at h₂
    have h₃ := List.append_cancel_left h₂
    injection h₃ with _ h₄
    exact congrArg String.mk h₄
  · intro h
    rw [h]

theorem eraseKey_idem {l : List (String × β)} {k : String} :
    eraseKey k (eraseKey k l) = eraseKey k l :=
  eraseKey_of_not_found assocFind_eraseKey_self

theorem LRUCache.get_miss {α} {st : LRUCache α} {now : Nat} {ns k : String}
    (h : assocFind (LRUCache._generate_key ns k) st.cache = none) :
    st.get now ns k = (none, { st with misses := st.misses + 1 }) := by
  simp [LRUCache.get, h]

theorem LRUCache.get_hit_noexp {α} {st : LRUCache α} {now : Nat} {ns k : String} {v : α}
    (h : assocFind (LRUCache._generate_key ns k) st.cache = some (v, none)) :
    st.get now ns k =
      (some v,
       { st with
           cache := eraseKey (LRUCache._generate_key ns k) st.cache ++
             [(LRUCache._generate_key ns k, (v, none))],
           hits := st.hits + 1 }) := by
  simp [LRUCache.get, h]

theorem LRUCache.get_hit_live {α} {st : LRUCache α} {now : Nat} {ns k : String} {v : α}
    {e : Nat} (h : assocFind (LRUCache._generate_key ns k) st.cache = some (v, some e))
    (he : e ≠ 0) (hlive : ¬ e < now) :
    st.get now ns k =
      (some v,
       { st with
           cache := eraseKey (LRUCache._generate_key ns k) st.cache ++
             [(LRUCache._generate_key ns k, (v, some e))],
           hits := st.hits + 1 }) := by
  simp [LRUCache.get, h, he, hlive]

theorem LRUCache.get_expired {α} {st : LRUCache α} {now : Nat} {ns k : String} {v : α}
    {e : Nat} (h : assocFind (LRUCache._generate_key ns k) st.cache = some (v, some e))
    (he : e ≠ 0) (hexp : e < now) :
    st.get now ns k =
      (none,
       { st with
           cache := eraseKey (LRUCache._generate_key ns k) st.cache,
           misses := st.misses + 1 }) := by
  simp only [LRUCache.get, h, he, hexp, and_true, ne_eq, not_false_eq_true, if_true]
  rw [eraseKey_append, eraseKey_idem]
  simp [eraseKey]

theorem LRUCache.set_max_size {α} {st : LRUCache α} {now : Nat} {ns k : String}
    {v : α} {ttl : Option Nat} : (st.set now ns k v ttl).max_size = st.max_size := by
  simp only [LRUCache.set]
  split <;> rfl

theorem LRUCache.set_hits {α} {st : LRUCache α} {now : Nat} {ns k : String}
    {v : α} {ttl : Option Nat} : (st.set now ns k v ttl).hits = st.hits := by
  simp only [LRUCache.set]
  split <;> rfl

theorem LRUCache.set_misses {α} {st : LRUCache α} {now : Nat} {ns k : String}
    {v : α} {ttl : Option Nat} : (st.set now ns k v ttl).misses = st.misses := by
  simp only [LRUCache.set]
  split <;> rfl

theorem LRUCache.set_find_self {α} {st : LRUCache α} {now : Nat} {ns k : String}
    {v : α} {ttl : Option Nat} (h : 1 ≤ st.max_size) :
    assocFind (LRUCache._generate_key ns k) (st.set now ns k v ttl).cache
      = some (v, pyExpiry now ttl) := by
  have hE : assocFind (LRUCache._generate_key ns k)
      (eraseKey (LRUCache._generate_key ns k) st.cache) = none := assocFind_eraseKey_self
  simp only [LRUCache.set]
  split
  next hc =>
    rcases hEE : eraseKey (LRUCache._generate_key ns k) st.cache with _ | ⟨p, E⟩
    · rw [hEE] at hc
      simp at hc
      omega
    · rw [hEE] at hE
      have hp : p.1 ≠ LRUCache._generate_key ns k := by
        have := assocFind_eq_none.mp hE
        exact this p (List.mem_cons_self p E)
      have hE₂ : assocFind (LRUCache._generate_key ns k) E = none := by
        rw [assocFind_eq_none]
        intro q hq
        exact assocFind_eq_none.mp hE q (List.mem_cons_of_mem p hq)
      simp only [List.cons_append, List.drop_succ_cons, List.drop_zero]
      rw [assocFind_append_of_none hE₂]
      simp [assocFind]
  next hc =>
    rw [assocFind_append_of_none hE]
    simp [assocFind]

theorem LRUCache.set_find_none {α} {st : LRUCache α} {now : Nat} {ns k k' : String}
    {v : α} {ttl : Option Nat} (h : assocFind k' st.cache = none)
    (h₂ : k' ≠ LRUCache._generate_key ns k) :
    assocFind k' (st.set now ns k v ttl).cache = none := by
  have hE : assocFind k' (eraseKey (LRUCache._generate_key ns k) st.cache) = none :=
    assocFind_eraseKey_none h
  have happ : assocFind k'
      (eraseKey (LRUCache._generate_key ns k) st.cache ++
        [(LRUCache._generate_key ns k, (v, pyExpiry now ttl))]) = none := by
    rw [assocFind_append_of_none hE]
    simp [assocFind, Ne.symm h₂]
  simp only [LRUCache.set]
  split
  · exact assocFind_drop_none happ
  · exact happ

theorem charListLe_total : ∀ a b : List Char, charListLe a b = true ∨ charListLe b a = true
  | [], _ => Or.inl rfl
  | _ :: _, [] => Or.inr rfl
  | x :: as, y :: bs => by
    by_cases hxy : x = y
    · subst hxy
      simpa [charListLe] using charListLe_total as bs
    · rcases lt_or_gt_of_ne hxy with h | h
      · left
        simp [charListLe, hxy, h]
      · right
        have hyx : y ≠ x := fun h₂ => hxy h₂.symm
        simp [charListLe, hyx, h]

theorem charListLe_antisymm : ∀ {a b : List Char},
    charListLe a b = true → charListLe b a = true → a = b
  | [], [], _, _ => rfl
  | [], _ :: _, _, h₂ => by simp [charListLe] at h₂
  | _ :: _, [], h₁, _ => by simp [charListLe] at h₁
  | x :: as, y :: bs, h₁, h₂ => by
    by_cases hxy : x = y
    · subst hxy
      simp only [charListLe, if_pos rfl] at h₁ h₂
      rw [charListLe_antisymm h₁ h₂]
    · exfalso
      have hyx : y ≠ x := fun h₃ => hxy h₃.symm
      simp only [charListLe, if_neg hxy, decide_eq_true_eq] at h₁
      simp only [charListLe, if_neg hyx, decide_eq_true_eq] at h₂
      exact asymm h₁ h₂

theorem charListLe_trans : ∀ {a b c : List Char},
    charListLe a b = true → charListLe b c = true → charListLe a c = true
  | [], _, _, _, _ => rfl
  | _ :: _, [], _, h₁, _ => by simp [charListLe] at h₁
  | _ :: _, _ :: _, [], _, h₂ => by simp [charListLe] at h₂
  | x :: as, y :: bs, z :: cs, h₁, h₂ => by
    by_cases hxy : x = y <;> by_cases hyz : y = z
    · subst hxy; subst hyz
      simp only [charListLe, if_pos rfl] at h₁ h₂ ⊢
      exact charListLe_trans h₁ h₂
    · subst hxy
      simp only [charListLe, if_neg hyz, decide_eq_true_eq] at h₂
      simp [charListLe, ne_of_lt h₂, h₂]
    · subst hyz
      simp only [charListLe, if_neg hxy, decide_eq_true_eq] at h₁
      simp [charListLe, hxy, h₁]
    · simp only [charListLe, if_neg hxy, decide_eq_true_eq] at h₁
      simp only [charListLe, if_neg hyz, decide_eq_true_eq] at h₂
      have hxz := lt_trans h₁ h₂
      simp [charListLe, ne_of_lt hxz, hxz]

theorem strLe_total (s t : String) : strLe s t = true ∨ strLe t s = true :=
  charListLe_total s.data t.data

theorem strLe_antisymm {s t : String} (h₁ : strLe s t = true) (h₂ : strLe t s = true) :
    s = t :=
  congrArg String.mk (charListLe_antisymm h₁ h₂)

theorem strLe_trans {s t u : String} (h₁ : strLe s t = true) (h₂ : strLe t u = true) :
    strLe s u = true :=
  charListLe_trans h₁ h₂

theorem sortInsert_perm (x : String × β) : ∀ l : List (String × β),
    (sortInsert x l).Perm (x :: l)
  | [] => List.Perm.refl _
  | y :: t => by
    by_cases h : strLe x.1 y.1
    · simp [sortInsert, h]
    · simp only [sortInsert, if_neg h]
      exact ((sortInsert_perm x t).cons y).trans (List.Perm.swap x y t)

theorem sortPairs_perm : ∀ l : List (String × β), (sortPairs l).Perm l
  | [] => List.Perm.refl _
  | x :: t => (sortInsert_perm x (sortPairs t)).trans ((sortPairs_perm t).cons x)

theorem mem_sortInsert {x z : String × β} {l : List (String × β)}
    (h : z ∈ sortInsert x l) : z = x ∨ z ∈ l := by
  have := (sortInsert_perm x l).mem_iff.mp h
  simpa using this

theorem sortInsert_pairwise {x : String × β} : ∀ {l : List (String × β)},
    l.Pairwise leP → (sortInsert x l).Pairwise leP
  | [], _ => by simp [sortInsert]
  | y :: t, hp => by
    obtain ⟨hy, ht⟩ := List.pairwise_cons.mp hp
    by_cases h : strLe x.1 y.1
    · simp only [sortInsert, if_pos h]
      refine List.pairwise_cons.mpr ⟨?_, hp⟩
      intro z hz
      rcases List.mem_cons.mp hz with h₂ | h₂
      · subst h₂; exact h
      · exact strLe_trans h (hy z h₂)
    · simp only [sortInsert, if_neg h]
      refine List.pairwise_cons.mpr ⟨?_, sortInsert_pairwise ht⟩
      intro z hz
      rcases mem_sortInsert hz with h₂ | h₂
      · rcases strLe_total x.1 y.1 with h₃ | h₃
        · exact absurd h₃ h
        · rw [h₂]
          exact h₃
      · exact hy z h₂

theorem sortPairs_pairwise : ∀ l : List (String × β), (sortPairs l).Pairwise leP
  | [] => List.Pairwise.nil
  | _ :: t => sortInsert_pairwise (sortPairs_pairwise t)

theorem sorted_perm_nodup_eq : ∀ {l₁ l₂ : List (String × β)}, l₁.Perm l₂ →
    l₁.Pairwise leP → l₂.Pairwise leP → (l₁.map Prod.fst).Nodup → l₁ = l₂
  | [], l₂, hp, _, _, _ => (hp.symm.eq_nil).symm ▸ rfl
  | a :: t, [], hp, _, _, _ => absurd hp.eq_nil (by simp)
  | a :: t, b :: t₂, hp, h₁, h₂, hn => by
    have hab : a = b := by
      rcases List.mem_cons.mp (hp.mem_iff.mp (List.mem_cons_self a t)) with h | ha2t
      · exact h
      · rcases List.mem_cons.mp (hp.symm.mem_iff.mp (List.mem_cons_self b t₂)) with h | hb1t
        · exact h.symm
        · exfalso
          have hle₁ : leP a b := (List.pairwise_cons.mp h₁).1 b hb1t
          have hle₂ : leP b a := (List.pairwise_cons.mp h₂).1 a ha2t
          have hfst : a.1 = b.1 := strLe_antisymm hle₁ hle₂
          have hmem : a.1 ∈ t.map Prod.fst := by
            rw [hfst]
            exact List.mem_map.mpr ⟨b, hb1t, rfl⟩
          rw [List.map_cons, List.nodup_cons] at hn
          exact hn.1 hmem
    subst hab
    have hp₂ := hp.cons_inv
    rw [List.map_cons, List.nodup_cons] at hn
    rw [sorted_perm_nodup_eq hp₂ (List.pairwise_cons.mp h₁).2 (List.pairwise_cons.mp h₂).2 hn.2]

theorem sortPairs_eq_of_perm {l₁ l₂ : List (String × β)} (hp : l₁.Perm l₂)
    (hn : (l₁.map Prod.fst).Nodup) : sortPairs l₁ = sortPairs l₂ :=
  sorted_perm_nodup_eq
    ((sortPairs_perm l₁).trans (hp.trans (sortPairs_perm l₂).symm))
    (sortPairs_pairwise l₁) (sortPairs_pairwise l₂)
    (((sortPairs_perm l₁).map Prod.fst).nodup_iff.mpr hn)

theorem jsonPairs_ok : ∀ {l : List (String × PyVal)},
    (∀ p ∈ l, (jsonDumps p.2).isSome) →
    jsonPairs l = some (l.map fun p => (p.1, dumpD p.2))
  | [], _ => rfl
  | (k, v) :: t, h => by
    have hv : (jsonDumps v).isSome := h (k, v) (List.mem_cons_self _ _)
    obtain ⟨s, hs⟩ := Option.isSome_iff_exists.mp hv
    have ht : ∀ p ∈ t, (jsonDumps p.2).isSome :=
      fun p hp => h p (List.mem_cons_of_mem _ hp)
    simp [jsonPairs, hs, jsonPairs_ok ht, dumpD]

theorem jsonPairs_none : ∀ {l : List (String × PyVal)},
    ¬ (∀ p ∈ l, (jsonDumps p.2).isSome) → jsonPairs l = none
  | [], h => absurd (by simp) h
  | (k, v) :: t, h => by
    by_cases hv : (jsonDumps v).isSome
    · obtain ⟨s, hs⟩ := Option.isSome_iff_exists.mp hv
      have ht : ¬ ∀ p ∈ t, (jsonDumps p.2).isSome := by
        intro hall
        exact h (by
          intro p hp
          rcases List.mem_cons.mp hp with h₂ | h₂
          · rw [h₂]
            exact hv
          · exact hall p h₂)
      simp [jsonPairs, hs, jsonPairs_none ht]
    · have : jsonDumps v = none := Option.not_isSome_iff_eq_none.mp hv
      simp [jsonPairs, this]

theorem dict_dumps_perm {d d' : List (String × PyVal)} (hp : d.Perm d')
    (hn : (d.map Prod.fst).Nodup) :
    jsonDumps (.dict d) = jsonDumps (.dict d') := by
  by_cases hall : ∀ p ∈ d, (jsonDumps p.2).isSome
  · have hall' : ∀ p ∈ d', (jsonDumps p.2).isSome :=
      fun p hpm => hall p (hp.mem_iff.mpr hpm)
    have hmaps : sortPairs (d.map fun p => (p.1, dumpD p.2))
        = sortPairs (d'.map fun p => (p.1, dumpD p.2)) := by
      refine sortPairs_eq_of_perm (hp.map _) ?_
      have hfst : (d.map fun p : String × PyVal => (p.1, dumpD p.2)).map Prod.fst
          = d.map Prod.fst := by
        rw [List.map_map]
        rfl
      rw [hfst]
      exact hn
    simp [jsonDumps, jsonPairs_ok hall, jsonPairs_ok hall', hmaps]
  · have hall' : ¬ ∀ p ∈ d', (jsonDumps p.2).isSome :=
      fun h₂ => hall (fun p hpm => h₂ p (hp.mem_iff.mp hpm))
    simp [jsonDumps, jsonPairs_none hall, jsonPairs_none hall']

theorem keyParts_congr {a a' : PyVal} (h : keyPart a = keyPart a') :
    ∀ pre post : List PyVal, keyParts (pre ++ a :: post) = keyParts (pre ++ a' :: post)
  | [], post => by simp [keyParts, h]
  | p :: pre, post => by simp [keyParts, keyParts_congr h pre post]

theorem listIsPrefix_append : ∀ p r : List Char, listIsPrefix p (p ++ r) = true
  | [], _ => rfl
  | c :: p, r => by simp [listIsPrefix, listIsPrefix_append p r]

theorem listIsPrefix_sep {c : Char} :
    ∀ {a b : List Char}, c ∉ a → c ∉ b → a ≠ b → ∀ r : List Char,
      listIsPrefix (a ++ [c]) (b ++ c :: r) = false
  | [], [], _, _, hab, _ => absurd rfl hab
  | [], y :: bs, _, hb, _, r => by
    have hcy : c ≠ y := fun h => hb (h ▸ List.mem_cons_self y bs)
    simp [listIsPrefix, hcy]
  | x :: as, [], ha, _, _, r => by
    have hxc : x ≠ c := by
      intro h
      subst h
      exact ha (List.mem_cons_self x as)
    simp [listIsPrefix, hxc]
  | x :: as, y :: bs, ha, hb, hab, r => by
    by_cases hxy : x = y
    · subst hxy
      have ha' : c ∉ as := fun h => ha (List.mem_cons_of_mem _ h)
      have hb' : c ∉ bs := fun h => hb (List.mem_cons_of_mem _ h)
      have hab' : as ≠ bs := fun h => hab (by rw [h])
      simp [listIsPrefix, listIsPrefix_sep ha' hb' hab' r]
    · simp [listIsPrefix, hxy]

theorem startsWith_genKey (ns k : String) :
    pyStartsWith (LRUCache._generate_key ns k) (ns ++ ":") = true := by
  have h₁ : (ns ++ ":").data = ns.data ++ [':'] := by
    rw [String.data_append]
  have h₂ : (LRUCache._generate_key ns k).data = (ns.data ++ [':']) ++ k.data := by
    rw [_generate_key_data, List.append_assoc]
    rfl
  rw [pyStartsWith, h₁, h₂]
  exact listIsPrefix_append _ _

theorem startsWith_genKey_ne {ns₁ ns₂ : String} (h₁ : ':' ∉ ns₁.data)
    (h₂ : ':' ∉ ns₂.data) (hne : ns₁ ≠ ns₂) (k : String) :
    pyStartsWith (LRUCache._generate_key ns₂ k) (ns₁ ++ ":") = false := by
  have hd : (ns₁ ++ ":").data = ns₁.data ++ [':'] := by
    rw [String.data_append]
  have hdata : ns₁.data ≠ ns₂.data := fun h => hne (congrArg String.mk h)
  rw [pyStartsWith, hd, _generate_key_data]
  exact listIsPrefix_sep h₁ h₂ hdata k.data

/-- C10: For the in-memory LRU backend, set with ttl = 0 stores an entry with
no expiry timestamp and behaves exactly like ttl = None: the resulting cache
states are identical, the stored entry carries no expiry, and a later get at
any clock time returns the value rather than treating the entry as expired. -/
theorem lru_set_ttl_zero_no_expiry (α : Type) (st : LRUCache α) (now : Nat)
    (ns k : String) (v : α) (t₂ : Nat) (hcap : 1 ≤ st.max_size) :
    st.set now ns k v (some 0) = st.set now ns k v none ∧
    assocFind (LRUCache._generate_key ns k) (st.set now ns k v (some 0)).cache
      = some (v, none) ∧
    ((st.set now ns k v (some 0)).get t₂ ns k).1 = some v := by
  have hexp : pyExpiry now (some 0) = pyExpiry now none := by
    simp [pyExpiry]
  have hfind : assocFind (LRUCache._generate_key ns k)
      (st.set now ns k v (some 0)).cache = some (v, none) := by
    rw [LRUCache.set_find_self hcap, hexp]
    simp [pyExpiry]
  refine ⟨?_, hfind, ?_⟩
  · simp only [LRUCache.set, hexp]
  · rw [LRUCache.get_hit_noexp hfind]

/-- Witness for C10 at a concrete input: a fresh cache of capacity two,
namespace embedding, key k1. -/
theorem lru_set_ttl_zero_no_expiry_witness :
    1 ≤ (LRUCache.init Nat 2).max_size ∧
    ((LRUCache.init Nat 2).set 5 "embedding" "k1" 7 (some 0)
        = (LRUCache.init Nat 2).set 5 "embedding" "k1" 7 none ∧
      assocFind (LRUCache._generate_key "embedding" "k1")
        ((LRUCache.init Nat 2).set 5 "embedding" "k1" 7 (some 0)).cache
        = some (7, none) ∧
      (((LRUCache.init Nat 2).set 5 "embedding" "k1" 7 (some 0)).get 1000 "embedding" "k1").1
        = some 7) :=
  ⟨by decide, lru_set_ttl_zero_no_expiry Nat (LRUCache.init Nat 2) 5 "embedding" "k1" 7 1000
    (by decide)⟩

/-- C8: Constructing the cache manager with the remote backend requested but
the remote store unreachable (ping raises) never raises out of construction
(the constructor is a total function into backends) and yields the in-memory
LRU backend with the configured maximum size. -/
theorem cache_manager_fallback_to_memory (α : Type) (cfg : CacheConfigModel)
    (e : String) (hflag : cfg.use_redis_env = true) :
    CacheManager.backend_init α cfg (.error e)
      = .lru (LRUCache.init α cfg.memory_cache_max_size) := by
  cases hr : cfg.redis_available <;>
    simp [CacheManager.backend_init, CacheConfigModel.USE_REDIS, RedisCache.init, hflag, hr]

/-- Witness for C8 at a concrete configuration: remote requested, redis
module importable, ping failing with a connection error. -/
theorem cache_manager_fallback_to_memory_witness :
    (⟨true, true, 1000⟩ : CacheConfigModel).use_redis_env = true ∧
    CacheManager.backend_init Nat ⟨true, true, 1000⟩ (.error "connection refused")
      = .lru (LRUCache.init Nat 1000) :=
  ⟨rfl, cache_manager_fallback_to_memory Nat ⟨true, true, 1000⟩ "connection refused" rfl⟩

/-- C4 is a code bug, witnessed here by evaluation: a bare non-serializable
object passed as a positional argument does not raise; generate_cache_key
stringifies it into its identity-dependent default text, so two objects with
equal content but different addresses get different keys and no error reaches
the caller. Only a non-serializable object nested inside a list or dict makes
json.dumps raise. -/
theorem generate_cache_key_object_identity_eval :
    generate_cache_key id [PyVal.obj 1] [] = some "<object object at 0x1>" ∧
    generate_cache_key id [PyVal.obj 2] [] = some "<object object at 0x2>" ∧
    generate_cache_key id [PyVal.obj 1] [] ≠ generate_cache_key id [PyVal.obj 2] [] ∧
    generate_cache_key id [PyVal.list [PyVal.obj 1]] [] = none := by
  refine ⟨?_, ?_, ?_, ?_⟩ <;> decide

/-- C1: after set with a positive ttl, an immediate get returns the value and
leaves the miss counter alone; once the clock is strictly past the stored
expiry, get returns None, the expired entry is deleted from the store at that
point, and the miss counter of the whole scenario has grown by exactly 1. -/
theorem lru_ttl_hit_then_expire (α : Type) (st : LRUCache α) (ns k : String)
    (v : α) (ttl t₀ t₁ : Nat) (hcap : 1 ≤ st.max_size) (httl : 0 < ttl)
    (helapsed : t₀ + ttl < t₁) :
    (((st.set t₀ ns k v (some ttl)).get t₀ ns k).1 = some v) ∧
    (((st.set t₀ ns k v (some ttl)).get t₀ ns k).2.misses = st.misses) ∧
    ((((st.set t₀ ns k v (some ttl)).get t₀ ns k).2.get t₁ ns k).1 = none) ∧
    assocFind (LRUCache._generate_key ns k)
      (((st.set t₀ ns k v (some ttl)).get t₀ ns k).2.get t₁ ns k).2.cache = none ∧
    ((((st.set t₀ ns k v (some ttl)).get t₀ ns k).2.get t₁ ns k).2.misses
      = st.misses + 1) := by
  have hexp : pyExpiry t₀ (some ttl) = some (t₀ + ttl) := by
    simp [pyExpiry, httl.ne']
  have hfind₁ : assocFind (LRUCache._generate_key ns k)
      (st.set t₀ ns k v (some ttl)).cache = some (v, some (t₀ + ttl)) := by
    rw [LRUCache.set_find_self hcap, hexp]
  have he0 : t₀ + ttl ≠ 0 := by omega
  have hlive : ¬ t₀ + ttl < t₀ := by omega
  have hget₁ : (st.set t₀ ns k v (some ttl)).get t₀ ns k
      = (some v,
         { st.set t₀ ns k v (some ttl) with
             cache := eraseKey (LRUCache._generate_key ns k)
                 (st.set t₀ ns k v (some ttl)).cache ++
               [(LRUCache._generate_key ns k, (v, some (t₀ + ttl)))],
             hits := (st.set t₀ ns k v (some ttl)).hits + 1 }) :=
    LRUCache.get_hit_live hfind₁ he0 hlive
  rw [hget₁]
  have hfind₂ : assocFind (LRUCache._generate_key ns k)
      (eraseKey (LRUCache._generate_key ns k) (st.set t₀ ns k v (some ttl)).cache ++
        [(LRUCache._generate_key ns k, (v, some (t₀ + ttl)))])
      = some (v, some (t₀ + ttl)) := by
    rw [assocFind_append_of_none assocFind_eraseKey_self]
    simp [assocFind]
  refine ⟨rfl, LRUCache.set_misses, ?_, ?_, ?_⟩
  · rw [LRUCache.get_expired hfind₂ he0 helapsed]
  · rw [LRUCache.get_expired hfind₂ he0 helapsed]
    exact assocFind_eraseKey_self
  · rw [LRUCache.get_expired hfind₂ he0 helapsed]
    simp [LRUCache.set_misses]

/-- Witness for C1 at a concrete input: the spec example with key k1, a list
value, ttl 1, stored at time 0 and read again at time 2, on a fresh cache. -/
theorem lru_ttl_hit_then_expire_witness :
    (1 ≤ (LRUCache.init (List Nat) 10).max_size ∧ 0 < 1 ∧ 0 + 1 < 2) ∧
    ((((LRUCache.init (List Nat) 10).set 0 "embedding" "k1" [1, 2, 3] (some 1)).get 0
        "embedding" "k1").1 = some [1, 2, 3] ∧
      (((LRUCache.init (List Nat) 10).set 0 "embedding" "k1" [1, 2, 3] (some 1)).get 0
        "embedding" "k1").2.misses = (LRUCache.init (List Nat) 10).misses ∧
      ((((LRUCache.init (List Nat) 10).set 0 "embedding" "k1" [1, 2, 3] (some 1)).get 0
        "embedding" "k1").2.get 2 "embedding" "k1").1 = none ∧
      assocFind (LRUCache._generate_key "embedding" "k1")
        ((((LRUCache.init (List Nat) 10).set 0 "embedding" "k1" [1, 2, 3] (some 1)).get 0
          "embedding" "k1").2.get 2 "embedding" "k1").2.cache = none ∧
      ((((LRUCache.init (List Nat) 10).set 0 "embedding" "k1" [1, 2, 3] (some 1)).get 0
        "embedding" "k1").2.get 2 "embedding" "k1").2.misses
        = (LRUCache.init (List Nat) 10).misses + 1) :=
  ⟨⟨by decide, by decide, by decide⟩,
    lru_ttl_hit_then_expire (List Nat) (LRUCache.init (List Nat) 10) "embedding" "k1"
      [1, 2, 3] 1 0 2 (by decide) (by decide) (by decide)⟩

/-- C5: with capacity 2 and a fresh cache, the sequence set a, set b, get a,
set c returns 1 for the get, leaves exactly the entries for a and c with
their values, evicts b, and sets the eviction counter to 1: the get on a
protected it from the eviction. -/
theorem lru_capacity_two_scenario (ns : String) (t₁ t₂ t₃ t₄ : Nat) :
    (((((LRUCache.init Nat 2).set t₁ ns "a" 1 none).set t₂ ns "b" 2 none).get t₃
        ns "a").1 = some 1) ∧
    ((((((LRUCache.init Nat 2).set t₁ ns "a" 1 none).set t₂ ns "b" 2 none).get t₃
        ns "a").2.set t₄ ns "c" 3 none).cache
      = [(LRUCache._generate_key ns "a", (1, none)),
         (LRUCache._generate_key ns "c", (3, none))]) ∧
    ((((((LRUCache.init Nat 2).set t₁ ns "a" 1 none).set t₂ ns "b" 2 none).get t₃
        ns "a").2.set t₄ ns "c" 3 none).evictions = 1) ∧
    assocFind (LRUCache._generate_key ns "b")
      (((((LRUCache.init Nat 2).set t₁ ns "a" 1 none).set t₂ ns "b" 2 none).get t₃
        ns "a").2.set t₄ ns "c" 3 none).cache = none := by
  have h₁ : LRUCache._generate_key ns "a" ≠ LRUCache._generate_key ns "b" := by
    rw [Ne, _generate_key_inj]
    decide
  have h₂ : LRUCache._generate_key ns "a" ≠ LRUCache._generate_key ns "c" := by
    rw [Ne, _generate_key_inj]
    decide
  have h₃ : LRUCache._generate_key ns "b" ≠ LRUCache._generate_key ns "c" := by
    rw [Ne, _generate_key_inj]
    decide
  simp [LRUCache.init, LRUCache.set, LRUCache.get, assocFind, eraseKey, pyExpiry,
    h₁, h₂, h₃, Ne.symm h₁, Ne.symm h₂, Ne.symm h₃]

/-- C7 as stated is false: because clear matches on the physical-key text
prefix namespace plus colon, clearing namespace a also removes the entry that
namespace a:b stores under key x, although a and a:b are distinct namespaces.
Evaluated at a concrete input: after set under a:b, the entry is present; and
after clear of the distinct namespace a it is gone. -/
theorem lru_clear_colon_namespace_leak :
    "a" ≠ "a:b" ∧
    assocFind (LRUCache._generate_key "a:b" "x")
      ((LRUCache.init Nat 2).set 0 "a:b" "x" 1 none).cache = some (1, none) ∧
    assocFind (LRUCache._generate_key "a:b" "x")
      (((LRUCache.init Nat 2).set 0 "a:b" "x" 1 none).clear (some "a")).cache
      = none := by
  refine ⟨by decide, by decide, by decide⟩

/-- C7 amended: for every cache state and every two distinct namespaces,
provided the cleared namespace is non-empty and neither namespace contains a
colon, clear of the first namespace removes every entry stored under it and
leaves every entry stored under the second namespace unchanged, both its
presence and its value and expiry. -/
theorem lru_clear_namespace_isolation (α : Type) (st : LRUCache α)
    (ns₁ ns₂ : String) (hne : ns₁ ≠ ns₂) (hn₁ : ns₁ ≠ "")
    (hc₁ : ':' ∉ ns₁.data) (hc₂ : ':' ∉ ns₂.data) :
    (∀ k, assocFind (LRUCache._generate_key ns₁ k) (st.clear (some ns₁)).cache
        = none) ∧
    (∀ k, assocFind (LRUCache._generate_key ns₂ k) (st.clear (some ns₁)).cache
        = assocFind (LRUCache._generate_key ns₂ k) st.cache) := by
  have hcl : (st.clear (some ns₁)).cache
      = st.cache.filter (fun p => !(pyStartsWith p.1 (ns₁ ++ ":"))) := by
    simp [LRUCache.clear, hn₁]
  rw [hcl]
  constructor
  · intro k
    apply assocFind_filter_drop
    intro v
    simp [startsWith_genKey]
  · intro k
    apply assocFind_filter_keep
    intro v
    simp [startsWith_genKey_ne hc₁ hc₂ hne k]

/-- Witness for the amended C7 at concrete inputs: one entry under
role_match and one under embedding; clearing role_match removes the former
and leaves the latter with its value and expiry. -/
theorem lru_clear_namespace_isolation_witness :
    ("role_match" ≠ "embedding" ∧ "role_match" ≠ "" ∧
      ':' ∉ "role_match".data ∧ ':' ∉ "embedding".data) ∧
    assocFind (LRUCache._generate_key "role_match" "r")
      ((((LRUCache.init Nat 3).set 0 "role_match" "r" 1 none).set 0 "embedding" "e" 2
        (some 9)).clear (some "role_match")).cache = none ∧
    assocFind (LRUCache._generate_key "embedding" "e")
      ((((LRUCache.init Nat 3).set 0 "role_match" "r" 1 none).set 0 "embedding" "e" 2
        (some 9)).clear (some "role_match")).cache
      = assocFind (LRUCache._generate_key "embedding" "e")
          (((LRUCache.init Nat 3).set 0 "role_match" "r" 1 none).set 0 "embedding" "e" 2
            (some 9)).cache :=
  ⟨⟨by decide, by decide, by decide, by decide⟩,
    (lru_clear_namespace_isolation Nat
      (((LRUCache.init Nat 3).set 0 "role_match" "r" 1 none).set 0 "embedding" "e" 2
        (some 9))
      "role_match" "embedding" (by decide) (by decide) (by decide) (by decide)).1 "r",
    (lru_clear_namespace_isolation Nat
      (((LRUCache.init Nat 3).set 0 "role_match" "r" 1 none).set 0 "embedding" "e" 2
        (some 9))
      "role_match" "embedding" (by decide) (by decide) (by decide) (by decide)).2 "e"⟩

theorem LRUCache.get_hit_some {α} {st : LRUCache α} {now : Nat} {ns k : String} {v : α}
    {e : Nat} (h : assocFind (LRUCache._generate_key ns k) st.cache = some (v, some e))
    (hc : ¬ (e ≠ 0 ∧ e < now)) :
    st.get now ns k =
      (some v,
       { st with
           cache := eraseKey (LRUCache._generate_key ns k) st.cache ++
             [(LRUCache._generate_key ns k, (v, some e))],
           hits := st.hits + 1 }) := by
  simp only [LRUCache.get, h]
  rw [if_neg hc]

/-- C6 as stated is false: a set whose key is already present in a full cache
evicts nothing and leaves the eviction counter unchanged, not incremented by
exactly 1. Evaluated at a concrete input: capacity 1, the single slot already
holding key a, and a set overwriting key a. -/
theorem lru_set_full_existing_key_no_eviction :
    (⟨1, [(LRUCache._generate_key "ns" "a", (1, none))], 0, 0, 0⟩
        : LRUCache Nat).cache.length
      = (⟨1, [(LRUCache._generate_key "ns" "a", (1, none))], 0, 0, 0⟩
        : LRUCache Nat).max_size ∧
    ((⟨1, [(LRUCache._generate_key "ns" "a", (1, none))], 0, 0, 0⟩
        : LRUCache Nat).set 5 "ns" "a" 2 none).evictions = 0 ∧
    ((⟨1, [(LRUCache._generate_key "ns" "a", (1, none))], 0, 0, 0⟩
        : LRUCache Nat).set 5 "ns" "a" 2 none).cache.length = 1 := by
  refine ⟨by decide, by decide, by decide⟩

/-- C6 amended: the predicate that the number of stored entries is at most
max_size is preserved by get, set, delete and clear; a set of a key not
already present in a full cache evicts exactly one entry, the least recently
used one at the head of the order, and increments the eviction counter by
exactly 1, leaving the size at max_size; and a set of an already present key
evicts nothing and does not grow the size, so no operation can leave more
than max_size entries. -/
theorem lru_size_bound_invariant (α : Type) (st : LRUCache α) (now : Nat)
    (ns k : String) (v w : α) (e : Option Nat) (ttl : Option Nat)
    (nsOpt : Option String) (hinv : st.cache.length ≤ st.max_size) :
    ((st.get now ns k).2.cache.length ≤ st.max_size) ∧
    ((st.set now ns k v ttl).cache.length ≤ st.max_size) ∧
    ((st.delete ns k).cache.length ≤ st.max_size) ∧
    ((st.clear nsOpt).cache.length ≤ st.max_size) ∧
    (assocFind (LRUCache._generate_key ns k) st.cache = none →
      st.cache.length = st.max_size →
      (st.set now ns k v ttl).cache
          = (st.cache ++ [(LRUCache._generate_key ns k, (v, pyExpiry now ttl))]).drop 1 ∧
        (st.set now ns k v ttl).evictions = st.evictions + 1 ∧
        (st.set now ns k v ttl).cache.length = st.max_size) ∧
    (assocFind (LRUCache._generate_key ns k) st.cache = some (w, e) →
      (st.set now ns k v ttl).evictions = st.evictions ∧
      (st.set now ns k v ttl).cache.length ≤ st.cache.length) := by
  refine ⟨?_, ?_, ?_, ?_, ?_, ?_⟩
  · rcases hf : assocFind (LRUCache._generate_key ns k) st.cache with _ | ⟨u, eu⟩
    · rw [LRUCache.get_miss hf]
      exact hinv
    · have hlt := length_eraseKey_lt hf
      rcases eu with _ | eu
      · rw [LRUCache.get_hit_noexp hf]
        simp only [List.length_append, List.length_cons, List.length_nil]
        omega
      · by_cases hc : eu ≠ 0 ∧ eu < now
        · rw [LRUCache.get_expired hf hc.1 hc.2]
          show (eraseKey (LRUCache._generate_key ns k) st.cache).length ≤ st.max_size
          have := length_eraseKey_le (l := st.cache)
            (k := LRUCache._generate_key ns k)
          omega
        · rw [LRUCache.get_hit_some hf hc]
          simp only [List.length_append, List.length_cons, List.length_nil]
          omega
  · have hle := length_eraseKey_le (l := st.cache) (k := LRUCache._generate_key ns k)
    simp only [LRUCache.set]
    split
    next hc =>
      simp only [List.length_drop, List.length_append, List.length_cons,
        List.length_nil] at hc ⊢
      omega
    next hc =>
      simp only [Nat.not_lt] at hc
      exact hc
  · simp only [LRUCache.delete]
    exact le_trans length_eraseKey_le hinv
  · rcases nsOpt with _ | n
    · simp [LRUCache.clear]
    · by_cases hn : n = ""
      · simp [LRUCache.clear, hn]
      · simp only [LRUCache.clear, if_neg hn]
        exact le_trans (List.length_filter_le _ _) hinv
  · intro hfresh hfull
    have hE := eraseKey_of_not_found hfresh
    simp only [LRUCache.set, hE]
    rw [if_pos (by
      simp only [List.length_append, List.length_cons, List.length_nil]
      omega)]
    refine ⟨rfl, rfl, ?_⟩
    simp only [List.length_drop, List.length_append, List.length_cons, List.length_nil]
    omega
  · intro hf
    have hlt := length_eraseKey_lt hf
    simp only [LRUCache.set]
    rw [if_neg (by
      simp only [List.length_append, List.length_cons, List.length_nil]
      omega)]
    constructor
    · rfl
    · simp only [List.length_append, List.length_cons, List.length_nil]
      omega

/-- Witness for the amended C6 at a concrete input: capacity 1, the slot
holding key a, operated on with the fresh key b, so that the fresh-key set
overflows and the present-key implication is instantiated at key a of the
same state through a second application at key a. -/
theorem lru_size_bound_invariant_witness :
    ((⟨1, [(LRUCache._generate_key "ns" "a", (5, none))], 0, 0, 0⟩
        : LRUCache Nat).cache.length
      ≤ (⟨1, [(LRUCache._generate_key "ns" "a", (5, none))], 0, 0, 0⟩
        : LRUCache Nat).max_size) ∧
    (((⟨1, [(LRUCache._generate_key "ns" "a", (5, none))], 0, 0, 0⟩
        : LRUCache Nat).get 3 "ns" "b").2.cache.length ≤ 1 ∧
      ((⟨1, [(LRUCache._generate_key "ns" "a", (5, none))], 0, 0, 0⟩
        : LRUCache Nat).set 3 "ns" "b" 7 (some 4)).cache.length ≤ 1 ∧
      ((⟨1, [(LRUCache._generate_key "ns" "a", (5, none))], 0, 0, 0⟩
        : LRUCache Nat).delete "ns" "b").cache.length ≤ 1 ∧
      ((⟨1, [(LRUCache._generate_key "ns" "a", (5, none))], 0, 0, 0⟩
        : LRUCache Nat).clear (some "ns")).cache.length ≤ 1 ∧
      (assocFind (LRUCache._generate_key "ns" "b")
          (⟨1, [(LRUCache._generate_key "ns" "a", (5, none))], 0, 0, 0⟩
            : LRUCache Nat).cache = none →
        (⟨1, [(LRUCache._generate_key "ns" "a", (5, none))], 0, 0, 0⟩
            : LRUCache Nat).cache.length = 1 →
        ((⟨1, [(LRUCache._generate_key "ns" "a", (5, none))], 0, 0, 0⟩
            : LRUCache Nat).set 3 "ns" "b" 7 (some 4)).cache
            = ((⟨1, [(LRUCache._generate_key "ns" "a", (5, none))], 0, 0, 0⟩
                : LRUCache Nat).cache ++
              [(LRUCache._generate_key "ns" "b", (7, pyExpiry 3 (some 4)))]).drop 1 ∧
          ((⟨1, [(LRUCache._generate_key "ns" "a", (5, none))], 0, 0, 0⟩
            : LRUCache Nat).set 3 "ns" "b" 7 (some 4)).evictions = 0 + 1 ∧
          ((⟨1, [(LRUCache._generate_key "ns" "a", (5, none))], 0, 0, 0⟩
            : LRUCache Nat).set 3 "ns" "b" 7 (some 4)).cache.length = 1) ∧
      (assocFind (LRUCache._generate_key "ns" "b")
          (⟨1, [(LRUCache._generate_key "ns" "a", (5, none))], 0, 0, 0⟩
            : LRUCache Nat).cache = some (5, none) →
        ((⟨1, [(LRUCache._generate_key "ns" "a", (5, none))], 0, 0, 0⟩
            : LRUCache Nat).set 3 "ns" "b" 7 (some 4)).evictions = 0 ∧
          ((⟨1, [(LRUCache._generate_key "ns" "a", (5, none))], 0, 0, 0⟩
            : LRUCache Nat).set 3 "ns" "b" 7 (some 4)).cache.length
            ≤ (⟨1, [(LRUCache._generate_key "ns" "a", (5, none))], 0, 0, 0⟩
              : LRUCache Nat).cache.length)) :=
  ⟨by decide,
    lru_size_bound_invariant Nat
      (⟨1, [(LRUCache._generate_key "ns" "a", (5, none))], 0, 0, 0⟩ : LRUCache Nat)
      3 "ns" "b" 7 5 none (some 4) (some "ns") (by decide)⟩

/-- C3: generate_cache_key is invariant under reordering of the entries of a
dict argument (with the distinct keys a Python dict has) and under reordering
of the keyword arguments: both calls produce identical keys, for any digest
function and hence for the md5 hexdigest of the source. -/
theorem generate_cache_key_order_independent :
    (∀ (digest : String → String) (pre post : List PyVal)
        (kwargs d d' : List (String × PyVal)),
      d.Perm d' → (d.map Prod.fst).Nodup →
      generate_cache_key digest (pre ++ PyVal.dict d :: post) kwargs
        = generate_cache_key digest (pre ++ PyVal.dict d' :: post) kwargs) ∧
    (∀ (digest : String → String) (args : List PyVal)
        (kw₁ kw₂ : List (String × PyVal)),
      kw₁.Perm kw₂ → (kw₁.map Prod.fst).Nodup →
      generate_cache_key digest args kw₁ = generate_cache_key digest args kw₂) := by
  constructor
  · intro digest pre post kwargs d d' hperm hnodup
    have hkp : keyPart (PyVal.dict d) = keyPart (PyVal.dict d') := by
      simp only [keyPart]
      exact dict_dumps_perm hperm hnodup
    rw [generate_cache_key, generate_cache_key, keyParts_congr hkp pre post]
  · intro digest args kw₁ kw₂ hperm hnodup
    rw [generate_cache_key, generate_cache_key, sortPairs_eq_of_perm hperm hnodup]

/-- Witness for C3 at concrete inputs: the dict with entries a, b reordered
as a positional argument, and the same two pairs reordered as keyword
arguments, with the identity digest. -/
theorem generate_cache_key_order_independent_witness :
    ([("a", PyVal.int 1), ("b", PyVal.int 2)].Perm
        [("b", PyVal.int 2), ("a", PyVal.int 1)] ∧
      ([("a", PyVal.int 1), ("b", PyVal.int 2)].map Prod.fst).Nodup) ∧
    generate_cache_key id [PyVal.dict [("a", PyVal.int 1), ("b", PyVal.int 2)]] []
      = generate_cache_key id [PyVal.dict [("b", PyVal.int 2), ("a", PyVal.int 1)]] [] ∧
    generate_cache_key id [] [("a", PyVal.int 1), ("b", PyVal.int 2)]
      = generate_cache_key id [] [("b", PyVal.int 2), ("a", PyVal.int 1)] :=
  ⟨⟨List.Perm.swap ("b", PyVal.int 2) ("a", PyVal.int 1) [], by decide⟩,
    generate_cache_key_order_independent.1 id [] [] []
      [("a", PyVal.int 1), ("b", PyVal.int 2)] [("b", PyVal.int 2), ("a", PyVal.int 1)]
      (List.Perm.swap ("b", PyVal.int 2) ("a", PyVal.int 1) []) (by decide),
    generate_cache_key_order_independent.2 id []
      [("a", PyVal.int 1), ("b", PyVal.int 2)] [("b", PyVal.int 2), ("a", PyVal.int 1)]
      (List.Perm.swap ("b", PyVal.int 2) ("a", PyVal.int 1) []) (by decide)⟩

theorem LRUCache.set_find_self_or (st : LRUCache α) (now : Nat) (ns k : String)
    (v : α) (ttl : Option Nat) :
    assocFind (LRUCache._generate_key ns k) (st.set now ns k v ttl).cache
        = some (v, pyExpiry now ttl) ∨
    assocFind (LRUCache._generate_key ns k) (st.set now ns k v ttl).cache = none := by
  have hE : assocFind (LRUCache._generate_key ns k)
      (eraseKey (LRUCache._generate_key ns k) st.cache) = none := assocFind_eraseKey_self
  simp only [LRUCache.set]
  split
  next hc =>
    rcases hEE : eraseKey (LRUCache._generate_key ns k) st.cache with _ | ⟨p, E⟩
    · right
      simp [assocFind]
    · left
      rw [hEE] at hE
      have hE₂ : assocFind (LRUCache._generate_key ns k) E = none := by
        rw [assocFind_eq_none]
        intro q hq
        exact assocFind_eq_none.mp hE q (List.mem_cons_of_mem p hq)
      simp only [List.cons_append, List.drop_succ_cons, List.drop_zero]
      rw [assocFind_append_of_none hE₂]
      simp [assocFind]
  next =>
    left
    rw [assocFind_append_of_none hE]
    simp [assocFind]

theorem cache_embedding_wrapper_hit {V : Type} {digest : String → String}
    {ttl : Option Nat} {f : List PyVal → List (String × PyVal) → Option V}
    {now : Nat} {args : List PyVal} {kwargs : List (String × PyVal)}
    {ck : String} {st : LRUCache (Option V)} {v : V}
    (hkey : generate_cache_key digest args kwargs = some ck)
    (hg : (st.get now "embedding" ck).1 = some (some v)) :
    cache_embedding_wrapper digest ttl f now args kwargs st
      = some (some v, (st.get now "embedding" ck).2, false) := by
  simp [cache_embedding_wrapper, hkey, hg]

theorem cache_embedding_wrapper_miss {V : Type} {digest : String → String}
    {ttl : Option Nat} {f : List PyVal → List (String × PyVal) → Option V}
    {now : Nat} {args : List PyVal} {kwargs : List (String × PyVal)}
    {ck : String} {st : LRUCache (Option V)}
    (hkey : generate_cache_key digest args kwargs = some ck)
    (hg : (st.get now "embedding" ck).1 = none ∨
      (st.get now "embedding" ck).1 = some none) :
    cache_embedding_wrapper digest ttl f now args kwargs st
      = some (f args kwargs,
          (st.get now "embedding" ck).2.set now "embedding" ck (f args kwargs)
            (some (embedding_cache_ttl ttl)),
          true) := by
  rcases hg with hg | hg <;> simp [cache_embedding_wrapper, hkey, hg]

theorem cache_embedding_wrapper_none_step {V : Type} {digest : String → String}
    {ttl : Option Nat} {f : List PyVal → List (String × PyVal) → Option V}
    {now : Nat} {args : List PyVal} {kwargs : List (String × PyVal)}
    {ck : String} {st : LRUCache (Option V)}
    (hkey : generate_cache_key digest args kwargs = some ck)
    (hf : f args kwargs = none)
    (hst : assocFind (LRUCache._generate_key "embedding" ck) st.cache = none ∨
      ∃ e, assocFind (LRUCache._generate_key "embedding" ck) st.cache
        = some (none, e)) :
    ∃ st₂, cache_embedding_wrapper digest ttl f now args kwargs st
        = some (none, st₂, true) ∧
      (assocFind (LRUCache._generate_key "embedding" ck) st₂.cache = none ∨
        ∃ e, assocFind (LRUCache._generate_key "embedding" ck) st₂.cache
          = some (none, e)) := by
  have hg : (st.get now "embedding" ck).1 = none ∨
      (st.get now "embedding" ck).1 = some none := by
    rcases hst with hst | ⟨e, hst⟩
    · left
      rw [LRUCache.get_miss hst]
    · rcases e with _ | e'
      · right
        rw [LRUCache.get_hit_noexp hst]
      · by_cases hc : e' ≠ 0 ∧ e' < now
        · left
          rw [LRUCache.get_expired hst hc.1 hc.2]
        · right
          rw [LRUCache.get_hit_some hst hc]
  have hcall : cache_embedding_wrapper digest ttl f now args kwargs st
      = some (f args kwargs,
          (st.get now "embedding" ck).2.set now "embedding" ck (f args kwargs)
            (some (embedding_cache_ttl ttl)),
          true) :=
    cache_embedding_wrapper_miss hkey hg
  rw [hf] at hcall
  refine ⟨_, hcall, ?_⟩
  rcases LRUCache.set_find_self_or ((st.get now "embedding" ck).2) now "embedding" ck
      none (some (embedding_cache_ttl ttl)) with h | h
  · right
    exact ⟨_, h⟩
  · left
    exact h

/-- C9: a None result is never served from cache by the memoization wrapper:
when the wrapped producer returns None, and None or nothing is what is stored
under the computed key, the cache-hit branch is not taken and the producer
body executes on both of two successive calls with the same arguments,
whatever the clock times. -/
theorem cache_embedding_none_not_served (V : Type) (digest : String → String)
    (ttl : Option Nat) (f : List PyVal → List (String × PyVal) → Option V)
    (args : List PyVal) (kwargs : List (String × PyVal)) (ck : String)
    (t₁ t₂ : Nat) (st : LRUCache (Option V))
    (hkey : generate_cache_key digest args kwargs = some ck)
    (hf : f args kwargs = none)
    (hst : assocFind (LRUCache._generate_key "embedding" ck) st.cache = none ∨
      ∃ e, assocFind (LRUCache._generate_key "embedding" ck) st.cache
        = some (none, e)) :
    runTwice digest ttl f t₁ t₂ args kwargs args kwargs st
      = some ((none, true), (none, true)) := by
  obtain ⟨st₁, hcall₁, hinv₁⟩ :
      ∃ st₁, cache_embedding_wrapper digest ttl f t₁ args kwargs st
          = some (none, st₁, true) ∧
        (assocFind (LRUCache._generate_key "embedding" ck) st₁.cache = none ∨
          ∃ e, assocFind (LRUCache._generate_key "embedding" ck) st₁.cache
            = some (none, e)) :=
    cache_embedding_wrapper_none_step hkey hf hst
  obtain ⟨st₂, hcall₂, -⟩ :
      ∃ st₂, cache_embedding_wrapper digest ttl f t₂ args kwargs st₁
          = some (none, st₂, true) ∧
        (assocFind (LRUCache._generate_key "embedding" ck) st₂.cache = none ∨
          ∃ e, assocFind (LRUCache._generate_key "embedding" ck) st₂.cache
            = some (none, e)) :=
    cache_embedding_wrapper_none_step hkey hf hinv₁
  simp only [runTwice, hcall₁, hcall₂]

/-- Witness for C9 at a concrete input: a producer that always returns None,
called twice with the same argument on a fresh cache; both calls execute the
body and neither returns a cached value. -/
theorem cache_embedding_none_not_served_witness :
    (generate_cache_key id [PyVal.int 1] [] = some "1" ∧
      (fun (_ : List PyVal) (_ : List (String × PyVal)) => (none : Option Nat))
        [PyVal.int 1] [] = none ∧
      assocFind (LRUCache._generate_key "embedding" "1")
        (LRUCache.init (Option Nat) 1000).cache = none) ∧
    runTwice id none
      (fun (_ : List PyVal) (_ : List (String × PyVal)) => (none : Option Nat))
      0 0 [PyVal.int 1] [] [PyVal.int 1] [] (LRUCache.init (Option Nat) 1000)
      = some ((none, true), (none, true)) :=
  ⟨⟨by decide, rfl, by decide⟩,
    cache_embedding_none_not_served Nat id none
      (fun _ _ => (none : Option Nat)) [PyVal.int 1] [] "1" 0 0
      (LRUCache.init (Option Nat) 1000) (by decide) rfl (Or.inl (by decide))⟩

/-- C2 as stated is false: the arguments int 1 and the string 1 are two
different argument sets, yet both stringify to the same canonical text and so
to the same cache key; the second call is served from cache and the wrapped
body executes only once, not twice. Evaluated at a concrete input. -/
theorem cache_embedding_two_distinct_args_one_execution :
    [PyVal.int 1] ≠ [PyVal.str "1"] ∧
    runTwice id none
      (fun (_ : List PyVal) (_ : List (String × PyVal)) => some (0 : Nat))
      0 0 [PyVal.int 1] [] [PyVal.str "1"] [] (LRUCache.init (Option Nat) 1000)
      = some ((some 0, true), (some 0, false)) := by
  constructor
  · intro h
    exact PyVal.noConfusion (List.cons.inj h).1
  · decide

/-- C2 amended: for a producer wrapped by cache_embedding that returns a
non-None result, starting from a state whose capacity is at least one and
where neither computed key is present, two calls with identical arguments
within the TTL window execute the producer body exactly once, the second call
taking the cache-hit branch and returning the cached value without executing
the body; and two calls whose argument sets generate different cache keys
execute the body on both calls. -/
theorem cache_embedding_memoization (V : Type) (digest : String → String)
    (f : List PyVal → List (String × PyVal) → Option V)
    (args args' : List PyVal) (kwargs kwargs' : List (String × PyVal))
    (ck ck' : String) (v : V) (t₁ t₂ t₃ : Nat) (st : LRUCache (Option V))
    (hkey : generate_cache_key digest args kwargs = some ck)
    (hkey' : generate_cache_key digest args' kwargs' = some ck')
    (hck : ck' ≠ ck)
    (hfresh : assocFind (LRUCache._generate_key "embedding" ck) st.cache = none)
    (hfresh' : assocFind (LRUCache._generate_key "embedding" ck') st.cache = none)
    (hf : f args kwargs = some v)
    (hcap : 1 ≤ st.max_size)
    (hwin : t₂ ≤ t₁ + CacheConfig.TTL_EMBEDDING) :
    runTwice digest none f t₁ t₂ args kwargs args kwargs st
      = some ((some v, true), (some v, false)) ∧
    runTwice digest none f t₁ t₃ args kwargs args' kwargs' st
      = some ((some v, true), (f args' kwargs', true)) := by
  have hgm : st.get t₁ "embedding" ck = (none, { st with misses := st.misses + 1 }) :=
    LRUCache.get_miss hfresh
  have hg₁ : (st.get t₁ "embedding" ck).1 = none := by rw [hgm]
  have hcall₁ : cache_embedding_wrapper digest none f t₁ args kwargs st
      = some (some v,
          ({ st with misses := st.misses + 1 } : LRUCache (Option V)).set t₁
            "embedding" ck (some v) (some (embedding_cache_ttl none)),
          true) := by
    rw [cache_embedding_wrapper_miss hkey (Or.inl hg₁), hgm, hf]
  have hexp : pyExpiry t₁ (some (embedding_cache_ttl none))
      = some (t₁ + CacheConfig.TTL_EMBEDDING) := by
    simp [pyExpiry, embedding_cache_ttl, CacheConfig.TTL_EMBEDDING]
  have hfind₁ : assocFind (LRUCache._generate_key "embedding" ck)
      (({ st with misses := st.misses + 1 } : LRUCache (Option V)).set t₁
        "embedding" ck (some v) (some (embedding_cache_ttl none))).cache
      = some (some v, some (t₁ + CacheConfig.TTL_EMBEDDING)) := by
    have hcap₂ : 1 ≤ ({ st with misses := st.misses + 1 }
        : LRUCache (Option V)).max_size := hcap
    rw [LRUCache.set_find_self hcap₂, hexp]
  have hc : ¬ (t₁ + CacheConfig.TTL_EMBEDDING ≠ 0 ∧
      t₁ + CacheConfig.TTL_EMBEDDING < t₂) := by
    have h86 : CacheConfig.TTL_EMBEDDING = 86400 := rfl
    omega
  have hg₂ : ((({ st with misses := st.misses + 1 } : LRUCache (Option V)).set t₁
      "embedding" ck (some v) (some (embedding_cache_ttl none))).get t₂
        "embedding" ck).1 = some (some v) := by
    rw [LRUCache.get_hit_some hfind₁ hc]
  have hcall₂ : cache_embedding_wrapper digest none f t₂ args kwargs
      (({ st with misses := st.misses + 1 } : LRUCache (Option V)).set t₁
        "embedding" ck (some v) (some (embedding_cache_ttl none)))
      = some (some v,
          ((({ st with misses := st.misses + 1 } : LRUCache (Option V)).set t₁
            "embedding" ck (some v) (some (embedding_cache_ttl none))).get t₂
              "embedding" ck).2,
          false) :=
    cache_embedding_wrapper_hit hkey hg₂
  have hkne : LRUCache._generate_key "embedding" ck'
      ≠ LRUCache._generate_key "embedding" ck :=
    fun h => hck (_generate_key_inj.mp h)
  have hfresh₂ : assocFind (LRUCache._generate_key "embedding" ck')
      (({ st with misses := st.misses + 1 } : LRUCache (Option V)).set t₁
        "embedding" ck (some v) (some (embedding_cache_ttl none))).cache = none :=
    LRUCache.set_find_none hfresh' hkne
  have hg₃ : ((({ st with misses := st.misses + 1 } : LRUCache (Option V)).set t₁
      "embedding" ck (some v) (some (embedding_cache_ttl none))).get t₃
        "embedding" ck').1 = none := by
    rw [LRUCache.get_miss hfresh₂]
  have hcall₃ : cache_embedding_wrapper digest none f t₃ args' kwargs'
      (({ st with misses := st.misses + 1 } : LRUCache (Option V)).set t₁
        "embedding" ck (some v) (some (embedding_cache_ttl none)))
      = some (f args' kwargs', _, true) :=
    cache_embedding_wrapper_miss hkey' (Or.inl hg₃)
  constructor
  · simp only [runTwice, hcall₁, hcall₂]
  · simp only [runTwice, hcall₁, hcall₃]

/-- Witness for the amended C2 at concrete inputs: a producer returning 5,
fresh cache of capacity 3, identical calls with int 1 twice, and a second
scenario calling with int 1 then int 2 whose keys differ. -/
theorem cache_embedding_memoization_witness :
    (generate_cache_key id [PyVal.int 1] [] = some "1" ∧
      generate_cache_key id [PyVal.int 2] [] = some "2" ∧
      ("2" : String) ≠ "1" ∧
      assocFind (LRUCache._generate_key "embedding" "1")
        (LRUCache.init (Option Nat) 3).cache = none ∧
      assocFind (LRUCache._generate_key "embedding" "2")
        (LRUCache.init (Option Nat) 3).cache = none ∧
      1 ≤ (LRUCache.init (Option Nat) 3).max_size ∧
      0 ≤ 0 + CacheConfig.TTL_EMBEDDING) ∧
    (runTwice id none
        (fun (_ : List PyVal) (_ : List (String × PyVal)) => some (5 : Nat))
        0 0 [PyVal.int 1] [] [PyVal.int 1] [] (LRUCache.init (Option Nat) 3)
        = some ((some 5, true), (some 5, false)) ∧
      runTwice id none
        (fun (_ : List PyVal) (_ : List (String × PyVal)) => some (5 : Nat))
        0 0 [PyVal.int 1] [] [PyVal.int 2] [] (LRUCache.init (Option Nat) 3)
        = some ((some 5, true), (some 5, true))) :=
  ⟨⟨by decide, by decide, by decide, by decide, by decide, by decide, by decide⟩,
    cache_embedding_memoization Nat id
      (fun _ _ => some (5 : Nat)) [PyVal.int 1] [PyVal.int 2] [] []
      "1" "2" 5 0 0 0 (LRUCache.init (Option Nat) 3)
      (by decide) (by decide) (by decide) (by decide) (by decide) rfl
      (by decide) (by decide)⟩
